import Mathlib

/-!
Shallow embedding of the xv6 physical-page allocator with reference counting
(src/xv6-proj3/kalloc.c) and proofs of its specification's claims.

Modelling conventions:
- Machine `uint` values are `Nat` taken modulo `2^32` where C overflow matters
  (the refcount table entries); `int num_free_pages` is an `Int`.
- The global allocator state (`kmem` plus `pmem` in the C) is one structure
  `KState`; every C function becomes a pure function on it.  A C function that
  can `panic` returns `Option KState`, `none` meaning the panic.
- The intrusive free list (the `next` pointer stored in each free page) is
  modelled as an abstract list of page addresses, the push
  `r->next = kmem.freelist; kmem.freelist = r` becoming list cons; page byte
  contents are modelled separately by `KState.mem`, so the `memset` poison is
  visible.  The spec's design notes sanction this address-stack representation
  as functionally equivalent.
- The memory-layout constants `KERNBASE`, `PHYSTOP` and the linker symbol
  `end` come from headers that are not part of the given source; they are
  carried in a `Config` parameter.
-/

namespace KAllocModel

/-- Page size in bytes (`PGSIZE` in the C source): 4096. -/
def PGSIZE : Nat := 4096

/-- Log2 of the page size (`PGSHIFT`): addresses are shifted by 12 to obtain
the refcount-table index. -/
def PGSHIFT : Nat := 12

/-- Modulus of the C `uint` type. -/
def U32 : Nat := 2 ^ 32

/-- Increment of a C `uint` value: wraps modulo `2^32`. -/
def u32inc (c : Nat) : Nat := (c + 1) % U32

/-- Decrement of a C `uint` value: wraps modulo `2^32` (so `0` becomes
`2^32 - 1`). -/
def u32dec (c : Nat) : Nat := (c + (U32 - 1)) % U32

/-- Modelled from the spec: the build-time memory-layout constants consumed by
the allocator, which live in headers (`memlayout.h`, `kernel.ld`) not present
in the given source: the kernel virtual base (`KERNBASE`), the first virtual
address after kernel-loaded code/data (the linker symbol `end`), and the
physical memory ceiling (`PHYSTOP`). -/
structure Config where
  kernbase : Nat
  kend : Nat
  physstop : Nat

/-- Modelled from the spec: virtual-to-physical translation `V2P(a)`, defined
in `memlayout.h` (not under the given source) as `((uint)(a)) - KERNBASE`,
i.e. subtraction in 32-bit unsigned arithmetic. -/
def V2P (cfg : Config) (v : Nat) : Nat :=
  (v + (U32 - cfg.kernbase % U32)) % U32

/-- Modelled from the spec: `PGROUNDUP` from `mmu.h` (not under the given
source), rounding an address up to the next page boundary. -/
def PGROUNDUP (a : Nat) : Nat := ((a + PGSIZE - 1) / PGSIZE) * PGSIZE

/-- The allocator's global state: `kmem` (the locking flag and the free list)
and `pmem` (the free-page counter and the refcount table), together with the
byte contents of memory (`mem a` is the byte stored at virtual address `a`),
which `kfree` poisons.  The spinlock itself has no effect in this sequential
model beyond its `use_lock` activation flag. -/
structure KState where
  use_lock : Bool
  freelist : List Nat
  num_free_pages : Int
  refcount : Nat → Nat
  mem : Nat → Nat

/-- Refcount-table index of the page holding virtual address `v`:
`V2P(v) >> PGSHIFT`. -/
def pageIdx (cfg : Config) (v : Nat) : Nat := V2P cfg v >>> PGSHIFT

/-- Pointwise update of the refcount table at index `i`. -/
def setRC (rc : Nat → Nat) (i c : Nat) : Nat → Nat :=
  fun j => if j = i then c else rc j

/-- Effect of `memset(v, 1, PGSIZE)`: every byte of the page at `v` becomes
the poison byte `1`. -/
def poisonPage (mem : Nat → Nat) (v : Nat) : Nat → Nat :=
  fun a => if v ≤ a ∧ a < v + PGSIZE then 1 else mem a

/-- The bounds validation at the top of `kfree`:
`(uint)v % PGSIZE || v < end || V2P(v) >= PHYSTOP` causes a panic. -/
def kfreeBadBounds (cfg : Config) (v : Nat) : Prop :=
  v % PGSIZE ≠ 0 ∨ v < cfg.kend ∨ cfg.physstop ≤ V2P cfg v

instance (cfg : Config) (v : Nat) : Decidable (kfreeBadBounds cfg v) := by
  unfold kfreeBadBounds; infer_instance

/-- `kfree(v)`: free the page of physical memory at virtual address `v`.
Panics (`none`) on a bounds violation or, when refcounting is active, on a
refcount underflow.  With `use_lock == 0` (bootstrap seeding) it skips all
refcount logic: poison, push, bump the counter.  Otherwise it decrements the
refcount and, only when the count reaches zero, poisons the page, pushes it
onto the free list and increments the free-page counter. -/
def kfree (cfg : Config) (st : KState) (v : Nat) : Option KState :=
  if kfreeBadBounds cfg v then
    none
  else
    let idx := pageIdx cfg v
    if st.use_lock = false then
      some { st with mem := poisonPage st.mem v,
                     freelist := v :: st.freelist,
                     num_free_pages := st.num_free_pages + 1 }
    else if st.refcount idx = 0 then
      none
    else
      let rc := setRC st.refcount idx (u32dec (st.refcount idx))
      if 0 < rc idx then
        some { st with refcount := rc }
      else
        some { st with refcount := rc,
                       mem := poisonPage st.mem v,
                       freelist := v :: st.freelist,
                       num_free_pages := st.num_free_pages + 1 }

/-- `kalloc()`: pop the free-list head; on success decrement the free-page
counter and set the popped page's refcount to 1, returning its address.
Returns `none` (the C null pointer) when the free list is empty, leaving the
state untouched. -/
def kalloc (cfg : Config) (st : KState) : KState × Option Nat :=
  match st.freelist with
  | [] => (st, none)
  | r :: rest =>
      ({ st with freelist := rest,
                 num_free_pages := st.num_free_pages - 1,
                 refcount := setRC st.refcount (pageIdx cfg r) 1 },
       some r)

/-- `freemem()`: the free-page-count query, returning `pmem.num_free_pages`. -/
def freemem (st : KState) : Int := st.num_free_pages

/-- `get_refcount(pa)`: read the refcount of the page containing physical
address `pa`. -/
def get_refcount (st : KState) (pa : Nat) : Nat :=
  st.refcount (pa >>> PGSHIFT)

/-- `inc_refcount(pa)`: unchecked `uint` increment of the refcount. -/
def inc_refcount (st : KState) (pa : Nat) : KState :=
  { st with refcount := (setRC st.refcount (pa >>> PGSHIFT)
      (u32inc (st.refcount (pa >>> PGSHIFT)))) }

/-- `dec_refcount(pa)`: unchecked `uint` decrement of the refcount. -/
def dec_refcount (st : KState) (pa : Nat) : KState :=
  { st with refcount := (setRC st.refcount (pa >>> PGSHIFT)
      (u32dec (st.refcount (pa >>> PGSHIFT)))) }

/-- The body of `freerange`'s for-loop: starting at the already page-aligned
address `p`, `kfree` each successive page; `n` is the number of loop
iterations the C loop condition `p + PGSIZE <= vend` admits, namely
`(vend - p) / PGSIZE`. -/
def seedPages (cfg : Config) (st : KState) (p : Nat) : Nat → Option KState
  | 0 => some st
  | n + 1 =>
      match kfree cfg st p with
      | none => none
      | some st1 => seedPages cfg st1 (p + PGSIZE) n

/-- `freerange(vstart, vend)`: round `vstart` up to a page boundary and
`kfree` every full page in `[PGROUNDUP(vstart), vend)`. -/
def freerange (cfg : Config) (st : KState) (vstart vend : Nat) : Option KState :=
  seedPages cfg st (PGROUNDUP vstart) ((vend - PGROUNDUP vstart) / PGSIZE)

/-- The state of the zero-initialized C globals at boot, before `kinit1`:
empty free list, zero counter, all-zero refcount table; `mem0` is the
(arbitrary) initial content of memory. -/
def initState (mem0 : Nat → Nat) : KState :=
  { use_lock := false
    freelist := []
    num_free_pages := 0
    refcount := fun _ => 0
    mem := mem0 }

/-- `kinit1(vstart, vend)`: clear the locking flag and seed the first range. -/
def kinit1 (cfg : Config) (st : KState) (vstart vend : Nat) : Option KState :=
  freerange cfg { st with use_lock := false } vstart vend

/-- Effect of `memset(&pmem.refcount, 0, sizeof(uint) * (PHYSTOP >> PGSHIFT))`:
every table entry with index below `PHYSTOP >> PGSHIFT` becomes zero. -/
def clearRefcounts (cfg : Config) (rc : Nat → Nat) : Nat → Nat :=
  fun i => if i < cfg.physstop >>> PGSHIFT then 0 else rc i

/-- `kinit2(vstart, vend)`: seed the second range, then set `use_lock` to 1,
then clear the whole refcount table.  (The line resetting
`num_free_pages` is removed in the source.) -/
def kinit2 (cfg : Config) (st : KState) (vstart vend : Nat) : Option KState :=
  (freerange cfg st vstart vend).map fun st1 =>
    { st1 with use_lock := true, refcount := clearRefcounts cfg st1.refcount }

/-- One post-bootstrap operation of the public API: an allocation, a
successful (non-panicking) free, or a raw refcount increment/decrement.
`get_refcount` and `freemem` are read-only and do not change the state. -/
inductive Step (cfg : Config) : KState → KState → Prop
  | alloc (st : KState) : Step cfg st (kalloc cfg st).1
  | free (st : KState) (v : Nat) (st' : KState) :
      kfree cfg st v = some st' → Step cfg st st'
  | inc (st : KState) (pa : Nat) : Step cfg st (inc_refcount st pa)
  | dec (st : KState) (pa : Nat) : Step cfg st (dec_refcount st pa)

/-- The counter-consistency invariant: the free-page counter returned by
`freemem` equals the length of the free list. -/
def counterOK (st : KState) : Prop :=
  freemem st = (st.freelist.length : Int)

/-- Every address on the free list is page-aligned. -/
def FreelistAligned (st : KState) : Prop :=
  ∀ v ∈ st.freelist, v % PGSIZE = 0

/-- Iterate `kalloc` `n` times, collecting the returned results in order. -/
def kallocIter (cfg : Config) (st : KState) : Nat → KState × List (Option Nat)
  | 0 => (st, [])
  | n + 1 =>
      let p := kalloc cfg st
      let q := kallocIter cfg p.1 n
      (q.1, p.2 :: q.2)

/-! ### Arithmetic facts about the `uint` counter operations -/

theorem u32dec_zero : u32dec 0 = U32 - 1 := by
  simp [u32dec, U32]

theorem u32dec_one : u32dec 1 = 0 := by
  simp [u32dec, U32]

theorem u32dec_of_pos (c : Nat) (h1 : 1 ≤ c) (h2 : c < U32) : u32dec c = c - 1 := by
  unfold u32dec U32 at *
  omega

/-! ### Branch characterizations of `kfree` -/

theorem kfree_of_badBounds (cfg : Config) (st : KState) (v : Nat)
    (h : kfreeBadBounds cfg v) : kfree cfg st v = none := by
  simp [kfree, h]

theorem kfree_unlocked (cfg : Config) (st : KState) (v : Nat)
    (hb : ¬ kfreeBadBounds cfg v) (hu : st.use_lock = false) :
    kfree cfg st v =
      some { st with mem := poisonPage st.mem v,
                     freelist := v :: st.freelist,
                     num_free_pages := st.num_free_pages + 1 } := by
  simp [kfree, hb, hu]

theorem kfree_underflow (cfg : Config) (st : KState) (v : Nat)
    (hb : ¬ kfreeBadBounds cfg v) (hu : st.use_lock = true)
    (hz : st.refcount (pageIdx cfg v) = 0) : kfree cfg st v = none := by
  simp [kfree, hb, hu, hz]

theorem kfree_last_owner_eq (cfg : Config) (st : KState) (v : Nat)
    (hb : ¬ kfreeBadBounds cfg v) (hu : st.use_lock = true)
    (h1 : st.refcount (pageIdx cfg v) = 1) :
    kfree cfg st v =
      some { st with refcount := setRC st.refcount (pageIdx cfg v) 0,
                     mem := poisonPage st.mem v,
                     freelist := v :: st.freelist,
                     num_free_pages := st.num_free_pages + 1 } := by
  simp [kfree, hb, hu, h1, u32dec_one, setRC]

theorem kfree_shared_eq (cfg : Config) (st : KState) (v : Nat)
    (hb : ¬ kfreeBadBounds cfg v) (hu : st.use_lock = true)
    (h2 : 2 ≤ st.refcount (pageIdx cfg v)) (hlt : st.refcount (pageIdx cfg v) < U32) :
    kfree cfg st v =
      some { st with
             refcount := (setRC st.refcount (pageIdx cfg v)
               (st.refcount (pageIdx cfg v) - 1)) } := by
  have hd : u32dec (st.refcount (pageIdx cfg v)) = st.refcount (pageIdx cfg v) - 1 :=
    u32dec_of_pos _ (by omega) hlt
  simp [kfree, hb, hu, hd, setRC]
  constructor
  · omega
  · omega

theorem kfree_some_shape (cfg : Config) (st : KState) (v : Nat) (st' : KState)
    (h : kfree cfg st v = some st') :
    ¬ kfreeBadBounds cfg v ∧ st'.use_lock = st.use_lock ∧
    ((st'.freelist = v :: st.freelist ∧
        st'.num_free_pages = st.num_free_pages + 1) ∨
      (st'.freelist = st.freelist ∧ st'.num_free_pages = st.num_free_pages)) := by
  by_cases hb : kfreeBadBounds cfg v
  · rw [kfree_of_badBounds cfg st v hb] at h
    exact absurd h (by simp)
  · refine ⟨hb, ?_⟩
    simp only [kfree, if_neg hb] at h
    by_cases hu : st.use_lock = false
    · rw [if_pos hu] at h
      cases h
      simp
    · rw [if_neg hu] at h
      by_cases hz : st.refcount (pageIdx cfg v) = 0
      · rw [if_pos hz] at h
        exact absurd h (by simp)
      · rw [if_neg hz] at h
        by_cases hp : 0 < setRC st.refcount (pageIdx cfg v)
            (u32dec (st.refcount (pageIdx cfg v))) (pageIdx cfg v)
        · rw [if_pos hp] at h
          cases h
          simp
        · rw [if_neg hp] at h
          cases h
          simp

theorem kfree_isSome (cfg : Config) (st : KState) (v : Nat)
    (hb : ¬ kfreeBadBounds cfg v)
    (h : st.use_lock = true → st.refcount (pageIdx cfg v) ≠ 0) :
    kfree cfg st v ≠ none := by
  simp only [kfree, if_neg hb]
  by_cases hu : st.use_lock = false
  · simp [hu]
  · rw [if_neg hu]
    rw [if_neg (h (by revert hu; cases st.use_lock <;> simp))]
    by_cases hp : 0 < setRC st.refcount (pageIdx cfg v)
        (u32dec (st.refcount (pageIdx cfg v))) (pageIdx cfg v)
    · simp [hp]
    · simp [hp]

/-! ### Basic `kalloc` lemmas -/

theorem kalloc_nil (cfg : Config) (st : KState) (h : st.freelist = []) :
    kalloc cfg st = (st, none) := by
  simp [kalloc, h]

theorem kalloc_cons (cfg : Config) (st : KState) (r : Nat) (rest : List Nat)
    (h : st.freelist = r :: rest) :
    kalloc cfg st =
      ({ st with freelist := rest,
                 num_free_pages := st.num_free_pages - 1,
                 refcount := (setRC st.refcount (pageIdx cfg r) 1) },
       some r) := by
  simp [kalloc, h]

theorem kallocIter_spec (cfg : Config) (st : KState) (n : Nat) :
    (kallocIter cfg st n).2 =
      (st.freelist.take n).map some ++ List.replicate (n - st.freelist.length) none ∧
    (kallocIter cfg st n).1.freelist = st.freelist.drop n := by
  induction n generalizing st with
  | zero => simp [kallocIter]
  | succ n ih =>
      cases hfl : st.freelist with
      | nil =>
          have hk := kalloc_nil cfg st hfl
          have := ih st
          simp [kallocIter, hk, hfl, List.replicate_succ] at this ⊢
          exact this
      | cons r rest =>
          have hk := kalloc_cons cfg st r rest hfl
          have := ih (kalloc cfg st).1
          rw [hk] at this
          simp only [kallocIter, hk, hfl]
          simp at this ⊢
          exact this

/-! ### Preservation of the counter and alignment invariants -/

theorem kfree_counterOK (cfg : Config) (st : KState) (v : Nat) (st' : KState)
    (h : kfree cfg st v = some st') (hc : counterOK st) : counterOK st' := by
  rcases (kfree_some_shape cfg st v st' h).2.2 with ⟨h1, h2⟩ | ⟨h1, h2⟩ <;>
    simp [counterOK, freemem, h1, h2] at hc ⊢ <;> omega

theorem aligned_of_not_badBounds (cfg : Config) (v : Nat)
    (hb : ¬ kfreeBadBounds cfg v) : v % PGSIZE = 0 := by
  unfold kfreeBadBounds at hb
  push_neg at hb
  exact hb.1

theorem kfree_aligned (cfg : Config) (st : KState) (v : Nat) (st' : KState)
    (h : kfree cfg st v = some st') (ha : FreelistAligned st) :
    FreelistAligned st' := by
  obtain ⟨hb, -, hsh⟩ := kfree_some_shape cfg st v st' h
  rcases hsh with ⟨h1, -⟩ | ⟨h1, -⟩
  · intro w hw
    rw [h1, List.mem_cons] at hw
    rcases hw with hw | hw
    · exact hw ▸ aligned_of_not_badBounds cfg v hb
    · exact ha w hw
  · intro w hw
    rw [h1] at hw
    exact ha w hw

theorem kalloc_counterOK (cfg : Config) (st : KState) (hc : counterOK st) :
    counterOK (kalloc cfg st).1 := by
  cases hfl : st.freelist with
  | nil => rw [kalloc_nil cfg st hfl]; exact hc
  | cons r rest =>
      rw [kalloc_cons cfg st r rest hfl]
      simp [counterOK, freemem, hfl] at hc ⊢
      omega

theorem kalloc_aligned (cfg : Config) (st : KState) (ha : FreelistAligned st) :
    FreelistAligned (kalloc cfg st).1 := by
  cases hfl : st.freelist with
  | nil => rw [kalloc_nil cfg st hfl]; exact ha
  | cons r rest =>
      rw [kalloc_cons cfg st r rest hfl]
      intro w hw
      refine ha w ?_
      rw [hfl]
      exact List.mem_cons_of_mem r hw

theorem step_counterOK (cfg : Config) (st st' : KState)
    (hc : counterOK st) (h : Step cfg st st') : counterOK st' := by
  cases h with
  | alloc => exact kalloc_counterOK cfg st hc
  | free v _ hf => exact kfree_counterOK cfg st v st' hf hc
  | inc pa => exact hc
  | dec pa => exact hc

theorem step_aligned (cfg : Config) (st st' : KState)
    (ha : FreelistAligned st) (h : Step cfg st st') : FreelistAligned st' := by
  cases h with
  | alloc => exact kalloc_aligned cfg st ha
  | free v _ hf => exact kfree_aligned cfg st v st' hf ha
  | inc pa => exact ha
  | dec pa => exact ha

/-! ### Seeding (`freerange`) lemmas -/

theorem seedPages_inv (cfg : Config) (n : Nat) :
    ∀ (st : KState) (p : Nat) (st' : KState), seedPages cfg st p n = some st' →
      (counterOK st → counterOK st') ∧
      (FreelistAligned st → FreelistAligned st') ∧
      (st.use_lock = false →
        st'.use_lock = false ∧ st'.refcount = st.refcount) := by
  induction n with
  | zero =>
      intro st p st' h
      cases h
      exact ⟨id, id, fun hu => ⟨hu, rfl⟩⟩
  | succ n ih =>
      intro st p st' h
      simp only [seedPages] at h
      cases hk : kfree cfg st p with
      | none => rw [hk] at h; exact absurd h (by simp)
      | some st1 =>
          rw [hk] at h
          obtain ⟨hc1, ha1, hu1⟩ := ih st1 (p + PGSIZE) st' h
          refine ⟨fun hc => hc1 (kfree_counterOK cfg st p st1 hk hc),
                  fun ha => ha1 (kfree_aligned cfg st p st1 hk ha),
                  fun hu => ?_⟩
          obtain ⟨hb, -⟩ := kfree_some_shape cfg st p st1 hk
          have hk1 := kfree_unlocked cfg st p hb hu
          rw [hk1] at hk
          cases hk
          obtain ⟨hu', hrc'⟩ := hu1 hu
          exact ⟨hu', hrc'⟩

theorem freerange_inv (cfg : Config) (st : KState) (a b : Nat) (st' : KState)
    (h : freerange cfg st a b = some st') :
    (counterOK st → counterOK st') ∧
    (FreelistAligned st → FreelistAligned st') ∧
    (st.use_lock = false → st'.use_lock = false ∧ st'.refcount = st.refcount) :=
  seedPages_inv cfg ((b - PGROUNDUP a) / PGSIZE) st (PGROUNDUP a) st' h

theorem kinit1_inv (cfg : Config) (st : KState) (a b : Nat) (st' : KState)
    (h : kinit1 cfg st a b = some st') :
    (counterOK st → counterOK st') ∧
    (FreelistAligned st → FreelistAligned st') ∧
    (st'.use_lock = false ∧ st'.refcount = st.refcount) := by
  obtain ⟨h1, h2, h3⟩ := freerange_inv cfg { st with use_lock := false } a b st' h
  exact ⟨h1, h2, h3 rfl⟩

theorem kinit2_eq (cfg : Config) (st : KState) (a b : Nat) (st2 : KState)
    (h : kinit2 cfg st a b = some st2) :
    ∃ st1, freerange cfg st a b = some st1 ∧
      st2 = { st1 with use_lock := true,
                       refcount := (clearRefcounts cfg st1.refcount) } := by
  simp only [kinit2] at h
  cases hf : freerange cfg st a b with
  | none => rw [hf] at h; exact absurd h (by simp)
  | some st1 =>
      rw [hf] at h
      simp at h
      exact ⟨st1, rfl, h.symm⟩

theorem not_badBounds (cfg : Config) (v : Nat) (ha : v % PGSIZE = 0)
    (hk : cfg.kend ≤ v) (hp : V2P cfg v < cfg.physstop) :
    ¬ kfreeBadBounds cfg v := by
  unfold kfreeBadBounds
  rintro (h | h | h)
  · exact h ha
  · omega
  · omega

instance (st : KState) : Decidable (counterOK st) := by
  unfold counterOK; infer_instance

instance (st : KState) : Decidable (FreelistAligned st) := by
  unfold FreelistAligned; infer_instance

/-! ### Concrete fixtures used by the witnesses: a configuration with kernel
base 0, kernel end one page, and a five-page physical ceiling, plus an
all-zero refcount table and memory. -/

def cfgW : Config := ⟨0, 4096, 20480⟩

def rcW : Nat → Nat := fun _ => 0

def memW : Nat → Nat := fun _ => 0

/-! ### The claims -/

/-- C2: once refcounting is active (`use_lock = 1`), `kfree` on a valid
address whose current reference count is already 0 panics: it returns no
successor state at all, so it neither touches the free list nor the
counter. -/
theorem kfree_zero_refcount_fatal (cfg : Config) (st : KState) (v : Nat)
    (hu : st.use_lock = true) (ha : v % PGSIZE = 0) (hk : cfg.kend ≤ v)
    (hp : V2P cfg v < cfg.physstop) (hz : st.refcount (pageIdx cfg v) = 0) :
    kfree cfg st v = none :=
  kfree_underflow cfg st v (not_badBounds cfg v ha hk hp) hu hz

theorem kfree_zero_refcount_fatal_witness :
    kfree cfgW ⟨true, [], 0, rcW, memW⟩ 4096 = none :=
  kfree_zero_refcount_fatal cfgW ⟨true, [], 0, rcW, memW⟩ 4096 rfl (by decide)
    (by decide) (by decide) rfl

/-- C3: when the reference count of a valid page is exactly 1, `kfree`
decrements it to 0, overwrites every byte of the 4096-byte page with the
poison byte, pushes the page onto the free-list head, and increments the
free-page counter by one. -/
theorem kfree_last_owner_frees (cfg : Config) (st : KState) (v : Nat)
    (hu : st.use_lock = true) (ha : v % PGSIZE = 0) (hk : cfg.kend ≤ v)
    (hp : V2P cfg v < cfg.physstop) (h1 : st.refcount (pageIdx cfg v) = 1) :
    ∃ st', kfree cfg st v = some st' ∧
      st'.refcount (pageIdx cfg v) = 0 ∧
      (∀ a, v ≤ a → a < v + PGSIZE → st'.mem a = 1) ∧
      st'.freelist = v :: st.freelist ∧
      freemem st' = freemem st + 1 := by
  have hb := not_badBounds cfg v ha hk hp
  refine ⟨_, kfree_last_owner_eq cfg st v hb hu h1, ?_, ?_, rfl, rfl⟩
  · simp [setRC]
  · intro a ha1 ha2
    simp [poisonPage, ha1, ha2]

theorem kfree_last_owner_frees_witness :
    ∃ st', kfree cfgW ⟨true, [], 0, fun i => if i = 1 then 1 else 0, memW⟩ 4096 =
        some st' ∧
      st'.refcount (pageIdx cfgW 4096) = 0 ∧
      (∀ a, 4096 ≤ a → a < 4096 + PGSIZE → st'.mem a = 1) ∧
      st'.freelist = [4096] ∧
      freemem st' = 0 + 1 :=
  kfree_last_owner_frees cfgW ⟨true, [], 0, fun i => if i = 1 then 1 else 0, memW⟩
    4096 rfl (by decide) (by decide) (by decide) (by decide)

/-- C4: when the reference count of a valid page is `n > 1`, `kfree` only
decrements that count by one: memory is untouched (no poisoning), the free
list is unchanged, and the free-page counter is unchanged. -/
theorem kfree_shared_decrements_only (cfg : Config) (st : KState) (v n : Nat)
    (hu : st.use_lock = true) (ha : v % PGSIZE = 0) (hk : cfg.kend ≤ v)
    (hp : V2P cfg v < cfg.physstop) (hn : st.refcount (pageIdx cfg v) = n)
    (h2 : 2 ≤ n) (hlt : n < U32) :
    ∃ st', kfree cfg st v = some st' ∧
      st'.refcount (pageIdx cfg v) = n - 1 ∧
      (∀ i, i ≠ pageIdx cfg v → st'.refcount i = st.refcount i) ∧
      st'.mem = st.mem ∧
      st'.freelist = st.freelist ∧
      freemem st' = freemem st := by
  have hb := not_badBounds cfg v ha hk hp
  subst hn
  refine ⟨_, kfree_shared_eq cfg st v hb hu h2 hlt, ?_, ?_, rfl, rfl, rfl⟩
  · simp [setRC]
  · intro i hi
    simp [setRC, hi]

theorem kfree_shared_decrements_only_witness :
    ∃ st', kfree cfgW ⟨true, [], 0, fun i => if i = 1 then 2 else 0, memW⟩ 4096 =
        some st' ∧
      st'.refcount (pageIdx cfgW 4096) = 2 - 1 ∧
      (∀ i, i ≠ pageIdx cfgW 4096 →
        st'.refcount i = (fun i => if i = 1 then 2 else 0) i) ∧
      st'.mem = memW ∧
      st'.freelist = [] ∧
      freemem st' = 0 :=
  kfree_shared_decrements_only cfgW
    ⟨true, [], 0, fun i => if i = 1 then 2 else 0, memW⟩ 4096 2 rfl (by decide)
    (by decide) (by decide) (by decide) (by decide) (by decide)

/-- C7: `kfree` panics on every address that is misaligned, below the kernel
end, or whose physical address is at or above the physical ceiling; and on
every address satisfying all three conditions the bounds check passes, the
only remaining panic being the refcount underflow. -/
theorem kfree_bounds_check (cfg : Config) (st : KState) (v : Nat) :
    ((v % PGSIZE ≠ 0 ∨ v < cfg.kend ∨ cfg.physstop ≤ V2P cfg v) →
      kfree cfg st v = none) ∧
    (v % PGSIZE = 0 → cfg.kend ≤ v → V2P cfg v < cfg.physstop →
      kfree cfg st v = none →
      st.use_lock = true ∧ st.refcount (pageIdx cfg v) = 0) := by
  constructor
  · intro h
    exact kfree_of_badBounds cfg st v h
  · intro ha hk hp hnone
    have hb := not_badBounds cfg v ha hk hp
    by_cases hu : st.use_lock = false
    · rw [kfree_unlocked cfg st v hb hu] at hnone
      exact absurd hnone (by simp)
    · have hu' : st.use_lock = true := by
        revert hu; cases st.use_lock <;> simp
      refine ⟨hu', ?_⟩
      by_contra hz
      exact kfree_isSome cfg st v hb (fun _ => hz) hnone

theorem kfree_bounds_check_witness :
    kfree cfgW ⟨true, [], 0, rcW, memW⟩ 4097 = none ∧
    ((⟨true, [], 0, rcW, memW⟩ : KState).use_lock = true ∧
      (⟨true, [], 0, rcW, memW⟩ : KState).refcount (pageIdx cfgW 4096) = 0) :=
  ⟨(kfree_bounds_check cfgW ⟨true, [], 0, rcW, memW⟩ 4097).1 (by decide),
   (kfree_bounds_check cfgW ⟨true, [], 0, rcW, memW⟩ 4096).2 (by decide)
     (by decide) (by decide) rfl⟩

/-- C10: `dec_refcount` and `inc_refcount` are unchecked modular arithmetic
on an unsigned 32-bit counter; decrementing a zero count wraps to
`2^32 - 1`, and a subsequent `kfree` on that page does not hit the
underflow/double-free panic. -/
theorem dec_refcount_wraps (cfg : Config) (st : KState) (pa v : Nat) :
    ((dec_refcount st pa).refcount (pa >>> PGSHIFT) =
      (st.refcount (pa >>> PGSHIFT) + (U32 - 1)) % U32) ∧
    ((inc_refcount st pa).refcount (pa >>> PGSHIFT) =
      (st.refcount (pa >>> PGSHIFT) + 1) % U32) ∧
    (st.refcount (pa >>> PGSHIFT) = 0 →
      (dec_refcount st pa).refcount (pa >>> PGSHIFT) = U32 - 1) ∧
    (st.refcount (pa >>> PGSHIFT) = 0 → st.use_lock = true → pa = V2P cfg v →
      v % PGSIZE = 0 → cfg.kend ≤ v → V2P cfg v < cfg.physstop →
      kfree cfg (dec_refcount st pa) v ≠ none) := by
  refine ⟨by simp [dec_refcount, setRC, u32dec], by simp [inc_refcount, setRC, u32inc],
    fun hz => by simp [dec_refcount, setRC, hz, u32dec_zero], ?_⟩
  intro hz hu hpa ha hk hp
  have hb := not_badBounds cfg v ha hk hp
  apply kfree_isSome cfg (dec_refcount st pa) v hb
  intro _
  have : (dec_refcount st pa).refcount (pageIdx cfg v) = U32 - 1 := by
    simp [dec_refcount, setRC, pageIdx, ← hpa, hz, u32dec_zero]
  rw [this]
  simp [U32]

theorem dec_refcount_wraps_witness :
    kfree cfgW (dec_refcount ⟨true, [], 0, rcW, memW⟩ 4096) 4096 ≠ none :=
  (dec_refcount_wraps cfgW ⟨true, [], 0, rcW, memW⟩ 4096 4096).2.2.2 rfl rfl
    (by decide) (by decide) (by decide) (by decide)

/-- C5: the free-list-alignment invariant holds at boot, is preserved by
bootstrap and by every post-bootstrap operation; and whenever `kalloc`
succeeds it returns the current free-list head, decrements the free-page
counter by one and sets the returned page's refcount to 1, so that
`get_refcount` of the returned address is 1 and the address is a multiple of
the page size. -/
theorem kalloc_success_spec :
    (∀ (mem0 : Nat → Nat), FreelistAligned (initState mem0)) ∧
    (∀ (cfg : Config) (st st' : KState), FreelistAligned st → Step cfg st st' →
      FreelistAligned st') ∧
    (∀ (cfg : Config) (st st' : KState) (a b : Nat), FreelistAligned st →
      kinit1 cfg st a b = some st' → FreelistAligned st') ∧
    (∀ (cfg : Config) (st st' : KState) (a b : Nat), FreelistAligned st →
      kinit2 cfg st a b = some st' → FreelistAligned st') ∧
    (∀ (cfg : Config) (st : KState) (r : Nat) (rest : List Nat),
      FreelistAligned st → st.freelist = r :: rest →
      (kalloc cfg st).2 = some r ∧
      (kalloc cfg st).1.freelist = rest ∧
      freemem (kalloc cfg st).1 = freemem st - 1 ∧
      get_refcount (kalloc cfg st).1 (V2P cfg r) = 1 ∧
      r % PGSIZE = 0) := by
  refine ⟨?_, ?_, ?_, ?_, ?_⟩
  · intro mem0 v hv
    simp [initState] at hv
  · intro cfg st st' ha h
    exact step_aligned cfg st st' ha h
  · intro cfg st st' a b ha h
    exact (kinit1_inv cfg st a b st' h).2.1 ha
  · intro cfg st st' a b ha h
    obtain ⟨st1, hfr, heq⟩ := kinit2_eq cfg st a b st' h
    have ha1 := (freerange_inv cfg st a b st1 hfr).2.1 ha
    rw [heq]
    exact ha1
  · intro cfg st r rest ha hfl
    rw [kalloc_cons cfg st r rest hfl]
    refine ⟨rfl, rfl, rfl, ?_, ?_⟩
    · simp [get_refcount, setRC, pageIdx]
    · exact ha r (by rw [hfl]; exact List.mem_cons_self r rest)

theorem kalloc_success_spec_witness :
    (kalloc cfgW ⟨true, [4096], 1, rcW, memW⟩).2 = some 4096 ∧
    (kalloc cfgW ⟨true, [4096], 1, rcW, memW⟩).1.freelist = [] ∧
    freemem (kalloc cfgW ⟨true, [4096], 1, rcW, memW⟩).1 = 1 - 1 ∧
    get_refcount (kalloc cfgW ⟨true, [4096], 1, rcW, memW⟩).1 (V2P cfgW 4096) = 1 ∧
    4096 % PGSIZE = 0 :=
  kalloc_success_spec.2.2.2.2 cfgW ⟨true, [4096], 1, rcW, memW⟩ 4096 []
    (by decide) rfl

/-- C8: `kalloc` on an empty free list returns `none` and leaves the whole
state unchanged; from a state with exactly `N` free pages the first `N`
allocations succeed and the `(N+1)`-th returns `none`; and after one
last-owner free of a previously allocated page the next allocation
succeeds. -/
theorem kalloc_exhaustion (cfg : Config) (st : KState) :
    (st.freelist = [] → kalloc cfg st = (st, none)) ∧
    (∀ N, st.freelist.length = N →
      (kallocIter cfg st (N + 1)).2 = st.freelist.map some ++ [none]) ∧
    (∀ v, st.freelist = [] → st.use_lock = true → v % PGSIZE = 0 →
      cfg.kend ≤ v → V2P cfg v < cfg.physstop →
      st.refcount (pageIdx cfg v) = 1 →
      ∃ st', kfree cfg st v = some st' ∧ (kalloc cfg st').2 = some v) := by
  refine ⟨fun h => kalloc_nil cfg st h, ?_, ?_⟩
  · intro N hN
    have h := (kallocIter_spec cfg st (N + 1)).1
    rw [h, hN, List.take_of_length_le (by omega)]
    simp [hN]
  · intro v hfl hu ha hk hp h1
    have hb := not_badBounds cfg v ha hk hp
    refine ⟨_, kfree_last_owner_eq cfg st v hb hu h1, ?_⟩
    rw [kalloc_cons cfg _ v st.freelist rfl]

theorem kalloc_exhaustion_witness :
    (kalloc cfgW ⟨true, [], 0, fun i => if i = 1 then 1 else 0, memW⟩ =
      (⟨true, [], 0, fun i => if i = 1 then 1 else 0, memW⟩, none)) ∧
    ((kallocIter cfgW ⟨true, [], 0, fun i => if i = 1 then 1 else 0, memW⟩
        (0 + 1)).2 = [none]) ∧
    (∃ st', kfree cfgW ⟨true, [], 0, fun i => if i = 1 then 1 else 0, memW⟩ 4096 =
        some st' ∧ (kalloc cfgW st').2 = some 4096) := by
  have h := kalloc_exhaustion cfgW ⟨true, [], 0, fun i => if i = 1 then 1 else 0, memW⟩
  exact ⟨h.1 rfl, h.2.1 0 rfl, h.2.2 4096 rfl rfl (by decide) (by decide)
    (by decide) (by decide)⟩

/-- C9: the free list has LIFO discipline: allocating `length freelist` times
returns exactly the free-list addresses in order (hence pairwise distinct
when the pool is duplicate-free), and freeing the most recently allocated
page as its last owner followed by one more allocation returns that same
address. -/
theorem kalloc_lifo_spec (cfg : Config) (st : KState) :
    ((kallocIter cfg st st.freelist.length).2 = st.freelist.map some) ∧
    (st.freelist.Nodup → ((kallocIter cfg st st.freelist.length).2).Nodup) ∧
    (∀ (st1 : KState) (v : Nat), kalloc cfg st = (st1, some v) →
      st.use_lock = true → v % PGSIZE = 0 → cfg.kend ≤ v →
      V2P cfg v < cfg.physstop →
      ∃ st2, kfree cfg st1 v = some st2 ∧ (kalloc cfg st2).2 = some v) := by
  have hmain : (kallocIter cfg st st.freelist.length).2 = st.freelist.map some := by
    have h := (kallocIter_spec cfg st st.freelist.length).1
    rw [h, List.take_length]
    simp
  refine ⟨hmain, ?_, ?_⟩
  · intro hnd
    rw [hmain]
    exact hnd.map (Option.some_injective Nat)
  · intro st1 v hk hu ha hke hp
    cases hfl : st.freelist with
    | nil =>
        rw [kalloc_nil cfg st hfl] at hk
        exact absurd (congrArg Prod.snd hk) (by simp)
    | cons r rest =>
        rw [kalloc_cons cfg st r rest hfl] at hk
        have hrv : r = v := by
          have := congrArg Prod.snd hk
          simpa using this
        have hst1 : st1 = { st with freelist := rest,
                                    num_free_pages := st.num_free_pages - 1,
                                    refcount := (setRC st.refcount (pageIdx cfg r) 1) } :=
          (congrArg Prod.fst hk).symm
        subst hrv
        have hb := not_badBounds cfg r ha hke hp
        have hu1 : st1.use_lock = true := by rw [hst1]; exact hu
        have h1 : st1.refcount (pageIdx cfg r) = 1 := by
          rw [hst1]; simp [setRC]
        refine ⟨_, kfree_last_owner_eq cfg st1 r hb hu1 h1, ?_⟩
        have hfl1 : ({ st1 with
            refcount := (setRC st1.refcount (pageIdx cfg r) 0),
            mem := poisonPage st1.mem r,
            freelist := r :: st1.freelist,
            num_free_pages := st1.num_free_pages + 1 } : KState).freelist =
            r :: st1.freelist := rfl
        rw [kalloc_cons cfg _ r st1.freelist hfl1]

theorem kalloc_lifo_spec_witness :
    ((kallocIter cfgW ⟨true, [4096, 8192], 2, rcW, memW⟩
        (⟨true, [4096, 8192], 2, rcW, memW⟩ : KState).freelist.length).2 =
      [some 4096, some 8192]) ∧
    (∃ st2, kfree cfgW
        (kalloc cfgW ⟨true, [4096, 8192], 2, rcW, memW⟩).1 4096 = some st2 ∧
      (kalloc cfgW st2).2 = some 4096) := by
  have h := kalloc_lifo_spec cfgW ⟨true, [4096, 8192], 2, rcW, memW⟩
  refine ⟨h.1, h.2.2 (kalloc cfgW ⟨true, [4096, 8192], 2, rcW, memW⟩).1 4096 rfl
    rfl (by decide) (by decide) (by decide)⟩

/-- C1: the free-page counter returned by `freemem` always equals the length
of the free list: the equality is established by the two-phase bootstrap from
the boot state and is preserved by `kalloc`, by every non-panicking `kfree`,
and by the refcount accessors. -/
theorem freemem_eq_freelist_length :
    (∀ (cfg : Config) (st st' : KState), counterOK st → Step cfg st st' →
      counterOK st') ∧
    (∀ (cfg : Config) (mem0 : Nat → Nat) (a b c d : Nat) (st1 st2 : KState),
      kinit1 cfg (initState mem0) a b = some st1 →
      kinit2 cfg st1 c d = some st2 →
      counterOK st1 ∧ counterOK st2) := by
  constructor
  · intro cfg st st' hc h
    exact step_counterOK cfg st st' hc h
  · intro cfg mem0 a b c d st1 st2 h1 h2
    have hc0 : counterOK (initState mem0) := by
      simp [counterOK, initState, freemem]
    have hc1 : counterOK st1 := (kinit1_inv cfg (initState mem0) a b st1 h1).1 hc0
    obtain ⟨stm, hfr, heq⟩ := kinit2_eq cfg st1 c d st2 h2
    have hcm : counterOK stm := (freerange_inv cfg st1 c d stm hfr).1 hc1
    exact ⟨hc1, heq ▸ hcm⟩

theorem freemem_eq_freelist_length_witness :
    counterOK (kalloc cfgW ⟨true, [4096], 1, rcW, memW⟩).1 ∧
    (counterOK (⟨false, [8192, 4096], 2, fun _ => 0,
        poisonPage (poisonPage memW 4096) 8192⟩ : KState) ∧
      counterOK (⟨true, [16384, 12288, 8192, 4096], 4,
        clearRefcounts cfgW (fun _ => 0),
        poisonPage (poisonPage (poisonPage (poisonPage memW 4096) 8192)
          12288) 16384⟩ : KState)) :=
  ⟨freemem_eq_freelist_length.1 cfgW ⟨true, [4096], 1, rcW, memW⟩ _ (by decide)
      (Step.alloc ⟨true, [4096], 1, rcW, memW⟩),
   freemem_eq_freelist_length.2 cfgW memW 4096 12288 12288 20480 _ _ rfl rfl⟩

/-- C6: `kinit2` first seeds its whole range through the unlocked,
un-refcounted free path (`use_lock` stays 0 and the refcount table is never
touched during seeding), and only after the seeding finishes does it set the
locking flag to 1 and then zero every refcount-table entry below the
physical ceiling. -/
theorem kinit2_order_spec (cfg : Config) (st : KState) (a b : Nat)
    (hu : st.use_lock = false) :
    (∀ st1, freerange cfg st a b = some st1 →
      st1.use_lock = false ∧ st1.refcount = st.refcount) ∧
    (∀ st2, kinit2 cfg st a b = some st2 →
      ∃ st1, freerange cfg st a b = some st1 ∧ st1.use_lock = false ∧
        st1.refcount = st.refcount ∧
        st2 = { st1 with use_lock := true,
                         refcount := (clearRefcounts cfg st1.refcount) } ∧
        st2.use_lock = true ∧
        (∀ i, i < cfg.physstop >>> PGSHIFT → st2.refcount i = 0)) := by
  constructor
  · intro st1 h
    exact (freerange_inv cfg st a b st1 h).2.2 hu
  · intro st2 h
    obtain ⟨st1, hfr, heq⟩ := kinit2_eq cfg st a b st2 h
    obtain ⟨hu1, hrc1⟩ := (freerange_inv cfg st a b st1 hfr).2.2 hu
    refine ⟨st1, hfr, hu1, hrc1, heq, by rw [heq], ?_⟩
    intro i hi
    rw [heq]
    simp [clearRefcounts, hi]

theorem kinit2_order_spec_witness :
    ∃ st1, freerange cfgW (initState memW) 12288 20480 = some st1 ∧
      st1.use_lock = false ∧
      st1.refcount = (initState memW).refcount ∧
      (⟨true, [16384, 12288], 2, clearRefcounts cfgW (fun _ => 0),
          poisonPage (poisonPage memW 12288) 16384⟩ : KState) =
        { st1 with use_lock := true,
                   refcount := (clearRefcounts cfgW st1.refcount) } ∧
      (⟨true, [16384, 12288], 2, clearRefcounts cfgW (fun _ => 0),
          poisonPage (poisonPage memW 12288) 16384⟩ : KState).use_lock = true ∧
      (∀ i, i < cfgW.physstop >>> PGSHIFT →
        (⟨true, [16384, 12288], 2, clearRefcounts cfgW (fun _ => 0),
            poisonPage (poisonPage memW 12288) 16384⟩ : KState).refcount i = 0) :=
  (kinit2_order_spec cfgW (initState memW) 12288 20480 rfl).2
    ⟨true, [16384, 12288], 2, clearRefcounts cfgW (fun _ => 0),
      poisonPage (poisonPage memW 12288) 16384⟩ rfl

end KAllocModel
